import Mathlib

/-!
Shallow embedding of `mplcursors/_pick_info.py` (pick dispatch, fractional
index codec, selection movers) for checking the natural-language spec.

Conventions used throughout:

* Screen/data coordinates are rationals.  IEEE NaN (which arises in the
  source from NaN data and from `0/0` when normalizing a zero-length
  segment) is modelled by the type `RQ` below, whose arithmetic propagates
  `nan` exactly as float arithmetic propagates NaN.  In the source,
  division by zero only ever arises as `0/0` (the unit vector of a
  zero-length segment), which is NaN; accordingly `RQ` division by zero
  yields `nan`.
* The source stores Euclidean distances (`np.sqrt(d2)`) and compares them
  (`min(..., key=dist)`, `dist < pickradius`).  Since `sqrt` is strictly
  monotone on nonnegatives, this embedding stores the squared distance
  `dist2` and compares squares: `sqrt d2 < r` is rendered as
  `0 ≤ r ∧ d2 < r ^ 2`, and `sqrt d2a ≤ sqrt d2b` as `d2a ≤ d2b`.
* A Python exception escaping a function is modelled by `Except.error`
  (or `Option.none` for the movers, where the only claims at stake
  distinguish "returns a Selection" from "raises").
-/

/-- Rational numbers extended with a NaN absorbing element, modelling the
IEEE-float NaN propagation that the source relies on (`np.nanargmin` skips
NaN distances produced by NaN data or zero-length segments). -/
inductive RQ where
  | nan : RQ
  | fin : ℚ → RQ
  deriving DecidableEq, Repr

namespace RQ

def add : RQ → RQ → RQ
  | fin a, fin b => fin (a + b)
  | _, _ => nan

def sub : RQ → RQ → RQ
  | fin a, fin b => fin (a - b)
  | _, _ => nan

def mul : RQ → RQ → RQ
  | fin a, fin b => fin (a * b)
  | _, _ => nan

/-- Division; in the source a zero divisor only occurs as `0/0`
(zero-length segment), which is NaN in floats. -/
def div : RQ → RQ → RQ
  | fin a, fin b => if b = 0 then nan else fin (a / b)
  | _, _ => nan

instance : Add RQ := ⟨add⟩
instance : Sub RQ := ⟨sub⟩
instance : Mul RQ := ⟨mul⟩
instance : Div RQ := ⟨div⟩

@[simp] theorem fin_add (a b : ℚ) : (fin a) + (fin b) = fin (a + b) := rfl
@[simp] theorem fin_sub (a b : ℚ) : (fin a) - (fin b) = fin (a - b) := rfl
@[simp] theorem fin_mul (a b : ℚ) : (fin a) * (fin b) = fin (a * b) := rfl
@[simp] theorem nan_add (a : RQ) : nan + a = nan := rfl
@[simp] theorem nan_sub (a : RQ) : nan - a = nan := rfl
@[simp] theorem nan_mul (a : RQ) : nan * a = nan := rfl
@[simp] theorem add_nan (a : RQ) : a + nan = nan := by cases a <;> rfl
@[simp] theorem sub_nan (a : RQ) : a - nan = nan := by cases a <;> rfl
@[simp] theorem mul_nan (a : RQ) : a * nan = nan := by cases a <;> rfl
@[simp] theorem fin_div (a b : ℚ) :
    (fin a) / (fin b) = if b = 0 then nan else fin (a / b) := rfl

/-- `np.clip(v, 0, 1)`: NaN propagates through `maximum`/`minimum`. -/
def clip01 : RQ → RQ
  | fin q => fin (min (max q 0) 1)
  | nan => nan

/-- Truncation toward zero (`.astype(int)`).  The cast of NaN is
unspecified in the source (platform-dependent); it is never reached under
the hypotheses of the theorems below, and is arbitrarily rendered as 0. -/
def trunc : RQ → ℤ
  | fin q => if 0 ≤ q then ⌊q⌋ else ⌈q⌉
  | nan => 0

/-- Extract the rational value; `nan` (never reached where this is used:
a finite squared distance forces every upstream value to be finite) is
arbitrarily rendered as 0. -/
def toQ : RQ → ℚ
  | fin q => q
  | nan => 0

@[simp] theorem toQ_fin (q : ℚ) : toQ (fin q) = q := rfl

end RQ

/-- A 2D point with possibly-NaN coordinates. -/
abbrev RQ2 := RQ × RQ

def liftPair (p : ℚ × ℚ) : RQ2 := (RQ.fin p.1, RQ.fin p.2)

def sub2 (a b : RQ2) : RQ2 := (a.1 - b.1, a.2 - b.2)

def dot2 (a b : RQ2) : RQ := a.1 * b.1 + a.2 * b.2

/-- Squared Euclidean distance `((a - b) ** 2).sum(-1)`. -/
def normSq (a b : RQ2) : RQ := dot2 (sub2 a b) (sub2 a b)

/-!  ## The fractional-index codec (`class Index`)  -/

/-- `Index(i, x, y)`: an integer vertex index plus a fractional position
`(x, y)` along the flat/step legs of the visual segment. -/
structure Index where
  int : ℤ
  x : ℚ
  y : ℚ
  deriving DecidableEq, Repr

namespace Index

/-- `Index.floor`. -/
def floor (i : Index) : ℤ := i.int

/-- `Index.ceil`: `self.int if max(self.x, self.y) == 0 else self.int + 1`. -/
def ceil (i : Index) : ℤ := if max i.x i.y = 0 then i.int else i.int + 1

/-- `Index.pre_index`: `i, odd = divmod(raw_index, 2);
x, y = (0, frac) if not odd else (frac, 1)`.  (`n_pts` is unused by the
source for this style but kept in the signature.) -/
def pre_index (n_pts : ℕ) (raw_index : ℕ) (frac : ℚ) : Index :=
  let i := raw_index / 2
  if raw_index % 2 = 0 then ⟨i, 0, frac⟩ else ⟨i, frac, 1⟩

/-- `Index.post_index`: `x, y = (frac, 0) if not odd else (1, frac)`. -/
def post_index (n_pts : ℕ) (raw_index : ℕ) (frac : ℚ) : Index :=
  let i := raw_index / 2
  if raw_index % 2 = 0 then ⟨i, frac, 0⟩ else ⟨i, 1, frac⟩

/-- The offset rescaling step of `Index.mid_index`: the first and last
visual segments of a mid-step plot are half-length, so their fractional
offset is rescaled before the even/odd split (`frac = .5 + frac/2` at
`raw_index == 0`, `frac = frac/2` at `raw_index == n_pts - 2`).  The
comparison with `n_pts - 2` is taken in ℤ, as in Python. -/
def midRescale (n_pts : ℕ) (raw_index : ℕ) (frac : ℚ) : ℚ :=
  if raw_index = 0 then 1/2 + frac / 2
  else if (raw_index : ℤ) = (n_pts : ℤ) - 2 then frac / 2
  else frac

/-- The even/odd split step of `Index.mid_index`, applied after
`midRescale`. -/
def midSplit (raw_index : ℕ) (frac : ℚ) : Index :=
  let quot : ℤ := raw_index / 2
  if raw_index % 2 = 0 then
    if frac < 1/2 then ⟨quot - 1, frac + 1/2, 1⟩
    else ⟨quot, frac - 1/2, 0⟩
  else ⟨quot, 1/2, frac⟩

/-- `Index.mid_index`: rescale the boundary half-segments, then split. -/
def mid_index (n_pts : ℕ) (raw_index : ℕ) (frac : ℚ) : Index :=
  midSplit raw_index (midRescale n_pts raw_index frac)

end Index

/-!  ## Selections and the index attribute stored on `target`  -/

/-- The value stored as `target.index`.  In the source this is a Python
int (`argmin`, marker branch), a numpy float (`x + y`, direct draw style)
or an `Index` instance (step draw styles); the three arms behave
differently under `np.ceil`/`np.floor`/`%` in `move`, so the distinction
is kept. -/
inductive PickIndex where
  | int : ℤ → PickIndex
  | flt : ℚ → PickIndex
  | steps : Index → PickIndex
  deriving DecidableEq, Repr

/-- `AttrArray(target)` with an optional `.index` attribute. -/
structure LTarget where
  xy : RQ2
  index : Option PickIndex
  deriving DecidableEq, Repr

/-- `Selection = namedtuple("Selection", "artist target dist annotation
extras")`.  The artist is host-owned and kept as an identity reference;
`annotation`/`extras` are opaque host handles.  `dist2` is the square of
the stored `dist` (see the header comment). -/
structure Selection where
  artist : ℕ
  target : LTarget
  dist2 : ℚ
  annotation : Option ℕ
  extras : List ℕ
  deriving DecidableEq, Repr

/-- The pointer event: screen pixel position and data coordinates, as
delivered by the host. -/
structure Event where
  x : ℚ
  y : ℚ
  xdata : ℚ
  ydata : ℚ

def evXY (ev : Event) : RQ2 := (RQ.fin ev.x, RQ.fin ev.y)

/-!  ## Draw-style expansion (matplotlib `cbook.pts_to_*step`)

These model the external matplotlib helpers `cbook.pts_to_prestep`,
`pts_to_midstep` and `pts_to_poststep` that the source selects by draw
style: `pre` inserts the point `(x_i, y_succ)` between consecutive
points, `post` inserts `(x_succ, y_i)`,
and `mid` inserts the two points `(m, y_i), (m, y_succ)` with `m` the
x-midpoint, plus the end points. -/

def preExpand : List RQ2 → List RQ2
  | [] => []
  | [p] => [p]
  | p :: q :: rest => p :: (p.1, q.2) :: preExpand (q :: rest)

def postExpand : List RQ2 → List RQ2
  | [] => []
  | [p] => [p]
  | p :: q :: rest => p :: (q.1, p.2) :: postExpand (q :: rest)

def midGo (p : RQ2) : List RQ2 → List RQ2
  | [] => [p]
  | q :: rest =>
    let m := (p.1 + q.1) / RQ.fin 2
    (m, p.2) :: (m, q.2) :: midGo q rest

def midExpand : List RQ2 → List RQ2
  | [] => []
  | p :: rest => p :: midGo p rest

inductive DrawStyle where
  | lines | stepsPre | stepsMid | stepsPost
  deriving DecidableEq, Repr

/-- The `drawstyle_conv` dispatch table. -/
def drawstyleConv : DrawStyle → List RQ2 → List RQ2
  | .lines => fun l => l
  | .stepsPre => preExpand
  | .stepsMid => midExpand
  | .stepsPost => postExpand

/-!  ## The geometry kernel of the `Line2D` pick  -/

/-- Accumulator loop for `nanargminVal`: `i` is the index of the list
head, `acc` the best (index, value) seen so far; NaN entries are
skipped, a finite entry replaces the accumulator only when strictly
smaller (so ties keep the earliest index, as `np.nanargmin` does). -/
def nanargminAux : ℕ → Option (ℕ × ℚ) → List RQ → Option (ℕ × ℚ)
  | _, acc, [] => acc
  | i, acc, RQ.nan :: rest => nanargminAux (i + 1) acc rest
  | i, none, RQ.fin q :: rest => nanargminAux (i + 1) (some (i, q)) rest
  | i, some jp, RQ.fin q :: rest =>
    nanargminAux (i + 1) (if q < jp.2 then some (i, q) else some jp) rest

/-- `np.nanargmin` together with the minimal value: index of the first
minimal non-NaN entry; `none` models the `ValueError` numpy raises when
the list is empty or all entries are NaN. -/
def nanargminVal (l : List RQ) : Option (ℕ × ℚ) :=
  nanargminAux 0 none l

/-- The clamped parametric offset of the projection of `xy` onto the
segment `p q`, normalized by the segment length: the source computes
`dot = np.clip(vs · us, 0, ds)` with `us = (q-p)/ds`, then uses
`dot/ds` as the fraction and `p + dot * us = p + (dot/ds) * (q-p)` as the
projection.  `segT` is that normalized fraction `dot/ds =
clip(vs·(q-p)/ds², 0, 1)`; for a zero-length segment `us = 0/0` is NaN in
the source and `segT` is `nan` here. -/
def segT (xy p q : RQ2) : RQ :=
  RQ.clip01 (dot2 (sub2 xy p) (sub2 q p) / normSq q p)

/-- The projected point `p + t * (q - p)`. -/
def segProj (xy p q : RQ2) : RQ2 :=
  let t := segT xy p q
  (p.1 + t * (q.1 - p.1), p.2 + t * (q.2 - p.2))

/-!  ## `compute_pick` for `Line2D`  -/

/-- The `Line2D` artist as read through the host interfaces the source
consults: data points, marker/linestyle visibility (the source's
`not in ["None", "none", " ", "", None]` tests), draw style, transforms
and pick radius. -/
structure LineArtist where
  id : ℕ
  xydata : List RQ2
  hasMarker : Bool
  hasLine : Bool
  drawstyle : DrawStyle
  transform : RQ2 → RQ2
  transformPathVerts : List RQ2 → List RQ2
  isAffine : Bool
  invTransData : RQ2 → RQ2
  pickradius : ℚ

/-- Marker branch of the `Line2D` pick: closest vertex by
`np.nanargmin` over squared screen distances; the target is the data-space
vertex (`artist.get_xydata()[argmin]`) with `target.index = argmin`.
`Except.error` models the `ValueError` raised by `np.nanargmin` on an
empty or all-NaN distance array. -/
def markerSel (a : LineArtist) (ev : Event) : Except String Selection :=
  let artist_xys := a.xydata.map a.transform
  let d2s := artist_xys.map (fun p => normSq (evXY ev) p)
  match nanargminVal d2s with
  | none => .error "All-NaN slice encountered"
  | some (argmin, d2) =>
    .ok ⟨a.id, ⟨a.xydata.getD argmin (RQ.nan, RQ.nan), some (.int argmin)⟩,
         d2, none, []⟩

/-- Line branch of the `Line2D` pick: expand the data points by the draw
style, project them to the screen, find the closest clamped projection
onto any segment, and decode the `(argmin, frac)` pair through the style's
index codec (only when the transform is affine). -/
def lineCandidate (a : LineArtist) (ev : Event) : Except String Selection :=
  let expanded := drawstyleConv a.drawstyle a.xydata
  let artist_xys :=
    if a.isAffine then expanded.map a.transform
    else a.transformPathVerts expanded
  let segs := artist_xys.zip artist_xys.tail
  let ts := segs.map (fun pq => segT (evXY ev) pq.1 pq.2)
  let projs := segs.map (fun pq => segProj (evXY ev) pq.1 pq.2)
  let d2s := projs.map (fun pr => normSq (evXY ev) pr)
  match nanargminVal d2s with
  | none => .error "All-NaN slice encountered"
  | some (argmin, d2) =>
    let proj := projs.getD argmin (RQ.nan, RQ.nan)
    let target_xy := a.invTransData proj
    let frac := (ts.getD argmin RQ.nan).toQ
    let index : Option PickIndex :=
      if a.isAffine then
        some (match a.drawstyle with
          | .lines => .flt (argmin + frac)
          | .stepsPre => .steps (Index.pre_index artist_xys.length argmin frac)
          | .stepsMid => .steps (Index.mid_index artist_xys.length argmin frac)
          | .stepsPost =>
            .steps (Index.post_index artist_xys.length argmin frac))
      else none
    .ok ⟨a.id, ⟨target_xy, index⟩, d2, none, []⟩

/-- The candidate list `sels` built by the `Line2D` pick: the marker
candidate (if markers are visible) followed by the line candidate (if
lines are visible and there are at least two points).  A `ValueError`
raised inside either branch aborts the whole call. -/
def lineSels (a : LineArtist) (ev : Event) : Except String (List Selection) :=
  match (if a.hasMarker then (markerSel a ev).map (fun s => [s])
         else .ok []) with
  | .error e => .error e
  | .ok ms =>
    match (if a.hasLine && decide (a.xydata.length > 1)
           then (lineCandidate a ev).map (fun s => [s]) else .ok []) with
    | .error e => .error e
    | .ok ls => .ok (ms ++ ls)

/-- Python `min(sels, key=lambda sel: sel.dist, default=None)`: first
element of minimal distance (comparing squared distances, see header). -/
def minByDist2 : List Selection → Option Selection
  | [] => none
  | s :: rest =>
    some (rest.foldl (fun acc b => if b.dist2 < acc.dist2 then b else acc) s)

/-- `compute_pick` for `Line2D`: keep the minimum-distance candidate and
return it only when its distance is strictly below the pick radius
(`sel.dist < artist.pickradius`, rendered on squares as
`0 ≤ pickradius ∧ dist2 < pickradius ^ 2`). -/
def computePickLine (a : LineArtist) (ev : Event) :
    Except String (Option Selection) :=
  match lineSels a ev with
  | .error e => .error e
  | .ok sels =>
    .ok (match minByDist2 sels with
      | some s =>
        if 0 ≤ a.pickradius ∧ s.dist2 < a.pickradius ^ 2 then some s
        else none
      | none => none)

/-!  ## `compute_pick` for `PathCollection`  -/

/-- Plain `argmin` with value: first minimal entry; `none` models the
`ValueError` numpy raises on an empty array. -/
def argminVal (l : List ℚ) : Option (ℕ × ℚ) :=
  l.enum.foldl
    (fun acc iq => match acc with
      | none => some iq
      | some jp => if iq.2 < jp.2 then some iq else acc)
    none

/-- The scattered-point collection as read through the host interfaces:
the containment test result `(contains, info["ind"])` delivered by
`artist.contains(event)`, the path count, the raw offsets and the axes
data transform. -/
structure PathCollectionArtist where
  id : ℕ
  contains : Bool
  ind : List ℕ
  numPaths : ℕ
  offsets : List (ℚ × ℚ)
  transData : ℚ × ℚ → ℚ × ℚ

/-- `compute_pick` for `PathCollection`.  The second component records
whether `warnings.warn` was called (the multi-path diagnostic).  The
`Except.error` arm models the `ValueError` of `argmin` on an empty
candidate list. -/
def computePickPathCollection (a : PathCollectionArtist) (ev : Event) :
    Except String (Option Selection) × Bool :=
  if !a.contains then (.ok none, false)
  else if a.numPaths ≠ 1 then (.ok none, true)
  else
    let offsets_sel := a.ind.map (fun i => a.offsets.getD i (0, 0))
    let d2 := offsets_sel.map (fun p =>
      let q := a.transData p
      (q.1 - ev.x) ^ 2 + (q.2 - ev.y) ^ 2)
    match argminVal d2 with
    | none => (.error "attempt to get argmin of an empty sequence", false)
    | some (argmin, d2min) =>
      (.ok (some ⟨a.id, ⟨liftPair (offsets_sel.getD argmin (0, 0)),
                         some (.int (a.ind.getD argmin 0))⟩,
            d2min, none, []⟩), false)

/-!  ## `compute_pick` for `AxesImage` and `Patch`  -/

/-- `compute_pick` for filled regions (`AxesImage`, `Patch`): delegate
containment to the host (`artist.contains(event)`); if inside, a
zero-distance Selection at the event's data coordinates, else no match. -/
def computePickRegion (artistId : ℕ) (containsResult : Bool) (ev : Event) :
    Option Selection :=
  if containsResult then
    some ⟨artistId, ⟨(RQ.fin ev.xdata, RQ.fin ev.ydata), none⟩, 0, none, []⟩
  else none

/-!  ## `move` for `Line2D`  -/

/-- `int(np.ceil(idx))`: on an integer index this is the identity, on a
float it is the ceiling, and on an object array numpy dispatches to the
element's `ceil` method (`Index.ceil`). -/
def npCeilPick : PickIndex → ℤ
  | .int i => i
  | .flt q => ⌈q⌉
  | .steps i => i.ceil

/-- `int(np.floor(idx))`; see `npCeilPick`. -/
def npFloorPick : PickIndex → ℤ
  | .int i => i
  | .flt q => ⌊q⌋
  | .steps i => i.floor

/-- `move` for `Line2D`.  `none` models a raised exception:
`new_idx % len` with `len = 0` is a `ZeroDivisionError`; with `new_idx` an
`Index` instance it is a `TypeError` (`Index` defines no `__mod__`); and
indexing the data array with a non-integral float raises.  For keys other
than left/right, `new_idx` is `sel.target.index` unchanged. -/
def moveLine (xydata : List RQ2) (sel : Selection) (key : String) :
    Option Selection :=
  match sel.target.index with
  | none => some sel
  | some idx =>
    let n := xydata.length
    if n = 0 then none
    else
      let build (new_idx : ℤ) (stored : PickIndex) : Option Selection :=
        some { sel with
               target := ⟨xydata.getD ((new_idx % (n : ℤ)).toNat) (RQ.nan, RQ.nan),
                          some stored⟩,
               dist2 := 0 }
      if key = "left" then
        let ni := npCeilPick idx - 1
        build ni (.int ni)
      else if key = "right" then
        let ni := npFloorPick idx + 1
        build ni (.int ni)
      else
        match idx with
        | .int i => build i (.int i)
        | .flt _ => none
        | .steps _ => none

/-!  ## `move` for `AxesImage`  -/

/-- The image artist: whether its concrete type is exactly `AxesImage`
(`type(sel.artist) != AxesImage` bails out for subclasses), its extent
`(xmin, xmax, ymin, ymax)` and its array shape `(rows, cols)`; the
source's `ns` is `(cols, rows)`. -/
structure ImageArtist where
  id : ℕ
  isExactAxesImage : Bool
  xmin : ℚ
  xmax : ℚ
  ymin : ℚ
  ymax : ℚ
  rows : ℕ
  cols : ℕ

/-- The key-to-delta table; `none` models the `KeyError` on any other
key. -/
def keyDelta : String → Option (ℤ × ℤ)
  | "left" => some (-1, 0)
  | "right" => some (1, 0)
  | "up" => some (0, 1)
  | "down" => some (0, -1)
  | _ => none

/-- The target-replacement step of `move` for `AxesImage`: convert the
target to fractional array-index space, truncate (`astype(int)`), add the
key's delta, wrap modulo the array shape (`idxs %= ns`), and map the new
integer cell back to its center in data space
(`(idxs + .5) / ns * (high - low) + low`). -/
def imageStep (a : ImageArtist) (xy : RQ2) (d : ℤ × ℤ) : LTarget :=
  let nx : ℤ := a.cols
  let ny : ℤ := a.rows
  let ix := (((xy.1 - RQ.fin a.xmin) / (RQ.fin a.xmax - RQ.fin a.xmin)) *
             RQ.fin (a.cols : ℚ)).trunc
  let iy := (((xy.2 - RQ.fin a.ymin) / (RQ.fin a.ymax - RQ.fin a.ymin)) *
             RQ.fin (a.rows : ℚ)).trunc
  let jx := (ix + d.1) % nx
  let jy := (iy + d.2) % ny
  let tx := ((jx : ℚ) + 1/2) / (a.cols : ℚ) * (a.xmax - a.xmin) + a.xmin
  let ty := ((jy : ℚ) + 1/2) / (a.rows : ℚ) * (a.ymax - a.ymin) + a.ymin
  ⟨(RQ.fin tx, RQ.fin ty), none⟩

/-- `move` for `AxesImage`.  Only `target` is replaced
(`sel._replace(target=target)`); subclasses are returned untouched and an
unknown key is a `KeyError` (`none`). -/
def moveImage (a : ImageArtist) (sel : Selection) (key : String) :
    Option Selection :=
  if !a.isExactAxesImage then some sel
  else
    match keyDelta key with
    | none => none
    | some d => some { sel with target := imageStep a sel.target.xy d }

/-- The data-space center of image cell `(cx, cy)`. -/
def cellCenter (a : ImageArtist) (cx cy : ℤ) : RQ2 :=
  (RQ.fin (((cx : ℚ) + 1/2) / (a.cols : ℚ) * (a.xmax - a.xmin) + a.xmin),
   RQ.fin (((cy : ℚ) + 1/2) / (a.rows : ℚ) * (a.ymax - a.ymin) + a.ymin))

/-!  ## Theorems  -/

/-- C3 counterexample: the claim states that for an even sub-phase the
offset is stored on the x-axis of the FractionalIndex.  At raw segment 0
(even sub-phase) with `frac = 1/2` the source stores `x = 0, y = frac`:
the offset goes to the y-axis, so the claim as stated is false. -/
theorem pre_index_even_axis_counterexample :
    (Index.pre_index 4 0 (1/2)).x = 0 ∧
    (Index.pre_index 4 0 (1/2)).y = 1/2 ∧
    ¬ (Index.pre_index 4 0 (1/2)).x = 1/2 := by
  refine ⟨rfl, rfl, ?_⟩
  intro h
  exact absurd h (by norm_num [Index.pre_index])

/-- C3 (amended): the raw visual-segment index splits by divmod into the
vertex index `raw / 2` and an even/odd sub-phase; when the sub-phase is
even the offset is stored on the *y*-axis (with `x = 0`), and when it is
odd the offset is stored on the *x*-axis with the y-coordinate anchored
at 1. -/
theorem pre_index_axes_amended (n raw : ℕ) (frac : ℚ) :
    (raw % 2 = 0 → Index.pre_index n raw frac = ⟨raw / 2, 0, frac⟩) ∧
    (raw % 2 = 1 → Index.pre_index n raw frac = ⟨raw / 2, frac, 1⟩) := by
  unfold Index.pre_index
  constructor
  · intro h
    simp [h]
  · intro h
    have h0 : ¬ raw % 2 = 0 := by omega
    simp [h0]

/-- Witness for `pre_index_axes_amended` at raw segments 2 (even) and
3 (odd). -/
theorem pre_index_axes_amended_witness :
    Index.pre_index 6 2 (1/3) = ⟨1, 0, 1/3⟩ ∧
    Index.pre_index 6 3 (1/3) = ⟨1, 1/3, 1⟩ := by
  constructor
  · exact (pre_index_axes_amended 6 2 (1/3)).1 rfl
  · exact (pre_index_axes_amended 6 3 (1/3)).2 rfl

/-- C2: for the step-mid encoder on an expanded point count `2 * N`
(`pts_to_midstep` always yields an even count, twice the number of data
vertices), the fractional offset is rescaled to `1/2 + frac/2` at raw
segment 0 and to `frac/2` at the last raw segment `n_pts - 2` before the
even/odd split, and for every raw segment in `[0, n_pts - 2]` and every
`frac ∈ [0, 1]` the resulting floor is a valid data-vertex index:
`0 ≤ floor ≤ N - 1`; in particular raw segment 0 with offset `1/2`
decodes to floor index 0. -/
theorem mid_index_floor_valid (N raw : ℕ) (frac : ℚ)
    (hN : 1 ≤ N) (hraw : raw ≤ 2 * N - 2) (h0 : 0 ≤ frac) (h1 : frac ≤ 1) :
    Index.mid_index (2 * N) raw frac =
      Index.midSplit raw (Index.midRescale (2 * N) raw frac) ∧
    (raw = 0 → Index.midRescale (2 * N) raw frac = 1/2 + frac / 2) ∧
    (raw ≠ 0 → (raw : ℤ) = 2 * (N : ℤ) - 2 →
      Index.midRescale (2 * N) raw frac = frac / 2) ∧
    0 ≤ (Index.mid_index (2 * N) raw frac).floor ∧
    (Index.mid_index (2 * N) raw frac).floor ≤ (N : ℤ) - 1 ∧
    (raw = 0 → frac = 1/2 → (Index.mid_index (2 * N) raw frac).floor = 0) := by
  have hf0 : raw = 0 → 1/2 ≤ Index.midRescale (2 * N) raw frac := by
    intro h
    unfold Index.midRescale
    rw [if_pos h]
    linarith
  refine ⟨rfl, ?_, ?_, ?_, ?_, ?_⟩
  · intro h
    unfold Index.midRescale
    rw [if_pos h]
  · intro h hl
    unfold Index.midRescale
    rw [if_neg h, if_pos (by omega)]
  · unfold Index.mid_index Index.midSplit Index.floor
    split_ifs with hpar hlt
    · by_cases hr0 : raw = 0
      · exact absurd hlt (by simpa using not_lt.mpr (hf0 hr0))
      · simp only
        omega
    · simp only
      omega
    · simp only
      omega
  · unfold Index.mid_index Index.midSplit Index.floor
    split_ifs with hpar hlt
    · simp only
      omega
    · simp only
      omega
    · simp only
      omega
  · intro hr0 hfrac
    subst hr0
    subst hfrac
    unfold Index.mid_index Index.midSplit Index.midRescale Index.floor
    norm_num

/-- Witness for `mid_index_floor_valid`: a 5-point series (expanded
count 10), raw segment 0 with offset `1/2` decodes to floor index 0,
within the valid vertex range `[0, 4]`. -/
theorem mid_index_floor_valid_witness :
    0 ≤ (Index.mid_index 10 0 (1/2)).floor ∧
    (Index.mid_index 10 0 (1/2)).floor ≤ 4 ∧
    (Index.mid_index 10 0 (1/2)).floor = 0 := by
  have e : (2 * 5 : ℕ) = 10 := rfl
  have h := mid_index_floor_valid 5 0 (1/2)
    (by norm_num) (by norm_num) (by norm_num) (by norm_num)
  rw [e] at h
  exact ⟨h.2.2.2.1, by have := h.2.2.2.2.1; norm_num at this ⊢; linarith,
         h.2.2.2.2.2 rfl rfl⟩

/-- Converting the center of cell `j` back to fractional array-index
space and truncating (`.astype(int)`) recovers `j` (the source's
round-trip between `idxs` and `target`). -/
theorem trunc_cellCenter (low high : ℚ) (n : ℕ) (j : ℤ)
    (hlh : low < high) (hn : 0 < n) (hj : 0 ≤ j) :
    ((RQ.fin (((j : ℚ) + 1/2) / (n : ℚ) * (high - low) + low) - RQ.fin low) /
     (RQ.fin high - RQ.fin low) * RQ.fin (n : ℚ)).trunc = j := by
  have hne : high - low ≠ 0 := sub_ne_zero.mpr (ne_of_gt hlh)
  have hnq : (n : ℚ) ≠ 0 := Nat.cast_ne_zero.mpr hn.ne'
  have hval : (((j : ℚ) + 1/2) / (n : ℚ) * (high - low) + low - low) /
      (high - low) * (n : ℚ) = (j : ℚ) + 1/2 := by
    field_simp
    ring
  simp only [RQ.fin_sub, RQ.fin_div]
  rw [if_neg hne, RQ.fin_mul, hval]
  simp only [RQ.trunc]
  rw [if_pos (by positivity), Int.floor_int_add]
  norm_num

/-- C10: for an exact (non-subclassed) image and any arrow key, `move`
replaces only the target: artist, dist, annotation and extras are those
of the input Selection; in particular the distance is not reset to 0. -/
theorem moveImage_replaces_only_target (a : ImageArtist) (sel : Selection)
    (key : String) (hex : a.isExactAxesImage = true)
    (hk : key = "left" ∨ key = "right" ∨ key = "up" ∨ key = "down") :
    ∃ s, moveImage a sel key = some s ∧
      s.artist = sel.artist ∧ s.dist2 = sel.dist2 ∧
      s.annotation = sel.annotation ∧ s.extras = sel.extras := by
  rcases hk with rfl | rfl | rfl | rfl <;>
    exact ⟨{ sel with target := imageStep a sel.target.xy _ },
           by rw [moveImage, hex]; rfl, rfl, rfl, rfl, rfl⟩

/-- Witness for `moveImage_replaces_only_target` on a 2×1 image with a
nonzero stored distance. -/
theorem moveImage_replaces_only_target_witness :
    ∃ s, moveImage ⟨0, true, 0, 2, 0, 1, 1, 2⟩
        ⟨3, ⟨(RQ.fin (3/2), RQ.fin (1/2)), none⟩, 7, some 9, [4]⟩ "right" =
        some s ∧
      s.artist = 3 ∧ s.dist2 = 7 ∧ s.annotation = some 9 ∧ s.extras = [4] := by
  obtain ⟨s, hs, h1, h2, h3, h4⟩ := moveImage_replaces_only_target
    ⟨0, true, 0, 2, 0, 1, 1, 2⟩
    ⟨3, ⟨(RQ.fin (3/2), RQ.fin (1/2)), none⟩, 7, some 9, [4]⟩ "right"
    rfl (Or.inr (Or.inl rfl))
  exact ⟨s, hs, h1, h2, h3, h4⟩

/-- Evaluating the image move step at the center of a valid cell: the
cell index is recovered exactly, stepped by the delta, and wrapped. -/
theorem imageStep_cellCenter (a : ImageArtist) (cx cy : ℤ) (d : ℤ × ℤ)
    (hx : a.xmin < a.xmax) (hy : a.ymin < a.ymax)
    (hnx : 0 < a.cols) (hny : 0 < a.rows) (hcx : 0 ≤ cx) (hcy : 0 ≤ cy) :
    imageStep a (cellCenter a cx cy) d =
      ⟨cellCenter a ((cx + d.1) % (a.cols : ℤ))
                   ((cy + d.2) % (a.rows : ℤ)), none⟩ := by
  simp only [imageStep, cellCenter]
  rw [trunc_cellCenter _ _ _ _ hx hnx hcx, trunc_cellCenter _ _ _ _ hy hny hcy]

/-- `move` on an exact image with a recognized key replaces exactly the
target, by `imageStep`. -/
theorem moveImage_eq (a : ImageArtist) (sel : Selection) (key : String)
    (d : ℤ × ℤ) (hex : a.isExactAxesImage = true)
    (hd : keyDelta key = some d) :
    moveImage a sel key =
      some { sel with target := imageStep a sel.target.xy d } := by
  rw [moveImage, hex, hd]
  rfl

/-- C8 (amended): on an exact image, moving `right` then `left` from a
cell center always returns a Selection targeting the original cell,
including across the wrap boundary; there, the intermediate right-move
lands on the opposite edge column (column 0). -/
theorem moveImage_right_left_roundtrip (a : ImageArtist) (sel : Selection)
    (cx cy : ℤ) (hex : a.isExactAxesImage = true)
    (hx : a.xmin < a.xmax) (hy : a.ymin < a.ymax)
    (hnx : 0 < a.cols) (hny : 0 < a.rows)
    (hcx0 : 0 ≤ cx) (hcx : cx < (a.cols : ℤ))
    (hcy0 : 0 ≤ cy) (hcy : cy < (a.rows : ℤ))
    (htgt : sel.target.xy = cellCenter a cx cy) :
    ∃ s1 s2, moveImage a sel "right" = some s1 ∧
      moveImage a s1 "left" = some s2 ∧
      s2.target.xy = sel.target.xy ∧
      (cx = (a.cols : ℤ) - 1 → s1.target.xy = cellCenter a 0 cy) := by
  have hnz : (a.cols : ℤ) ≠ 0 := by exact_mod_cast hnx.ne'
  have hcymod : (cy + (0 : ℤ)) % (a.rows : ℤ) = cy := by
    rw [add_zero]
    exact Int.emod_eq_of_lt hcy0 hcy
  have hjx0 : 0 ≤ (cx + 1) % (a.cols : ℤ) := Int.emod_nonneg _ hnz
  have h1 := moveImage_eq a sel "right" (1, 0) hex rfl
  rw [htgt, imageStep_cellCenter a cx cy (1, 0) hx hy hnx hny hcx0 hcy0,
      hcymod] at h1
  have h2 := moveImage_eq a
    { sel with target := ⟨cellCenter a ((cx + 1) % (a.cols : ℤ)) cy, none⟩ }
    "left" (-1, 0) hex rfl
  have hproj : ({ sel with target :=
      (⟨cellCenter a ((cx + 1) % (a.cols : ℤ)) cy, none⟩ : LTarget) }
      : Selection).target.xy =
      cellCenter a ((cx + 1) % (a.cols : ℤ)) cy := rfl
  rw [hproj,
      imageStep_cellCenter a _ cy (-1, 0) hx hy hnx hny hjx0 hcy0,
      hcymod] at h2
  have hkey : ((cx + 1) % (a.cols : ℤ) + (-1 : ℤ)) % (a.cols : ℤ) = cx := by
    rw [Int.emod_add_emod, show cx + 1 + (-1 : ℤ) = cx by ring]
    exact Int.emod_eq_of_lt hcx0 hcx
  rw [hkey] at h2
  refine ⟨_, _, h1, h2, ?_, ?_⟩
  · show cellCenter a cx cy = sel.target.xy
    rw [htgt]
  · intro hlast
    show cellCenter a ((cx + 1) % (a.cols : ℤ)) cy = cellCenter a 0 cy
    rw [hlast, Int.sub_add_cancel, Int.emod_self]

/-- Witness for `moveImage_right_left_roundtrip`: a 2×1 image with
extent `(0, 2, 0, 1)`, starting at the center of cell `(0, 0)`. -/
theorem moveImage_right_left_roundtrip_witness :
    ∃ s1 s2,
      moveImage ⟨0, true, 0, 2, 0, 1, 1, 2⟩
        ⟨0, ⟨(RQ.fin (1/2), RQ.fin (1/2)), none⟩, 0, none, []⟩ "right" =
        some s1 ∧
      moveImage ⟨0, true, 0, 2, 0, 1, 1, 2⟩ s1 "left" = some s2 ∧
      s2.target.xy = (RQ.fin (1/2), RQ.fin (1/2)) ∧
      ((0 : ℤ) = ((2 : ℕ) : ℤ) - 1 →
        s1.target.xy = cellCenter ⟨0, true, 0, 2, 0, 1, 1, 2⟩ 0 0) := by
  have h := moveImage_right_left_roundtrip ⟨0, true, 0, 2, 0, 1, 1, 2⟩
    ⟨0, ⟨(RQ.fin (1/2), RQ.fin (1/2)), none⟩, 0, none, []⟩ 0 0
    rfl (by norm_num) (by norm_num) (by norm_num) (by norm_num)
    (by norm_num) (by norm_num) (by norm_num) (by norm_num)
    (by norm_num [cellCenter])
  obtain ⟨s1, s2, h1, h2, h3, h4⟩ := h
  exact ⟨s1, s2, h1, h2, by rw [h3], h4⟩

/-- C8 counterexample to the claim's exception clause: on a 2-column
image (extent `(0, 2, 0, 1)`, shape 1×2), starting from the center
`(3/2, 1/2)` of the *last* column — the wrap-boundary case — moving
`right` then `left` returns a Selection targeting the original cell
again, not the opposite edge column, whose center x-coordinate `1/2`
differs from `3/2`. -/
theorem moveImage_wrap_counterexample :
    ((moveImage ⟨0, true, 0, 2, 0, 1, 1, 2⟩
        ⟨0, ⟨(RQ.fin (3/2), RQ.fin (1/2)), none⟩, 0, none, []⟩ "right").bind
      (fun s => moveImage ⟨0, true, 0, 2, 0, 1, 1, 2⟩ s "left")).map
      (fun s => s.target.xy) = some (RQ.fin (3/2), RQ.fin (1/2)) ∧
    (cellCenter ⟨0, true, 0, 2, 0, 1, 1, 2⟩ 0 0).1 ≠ RQ.fin (3/2) := by
  have e1 : moveImage ⟨0, true, 0, 2, 0, 1, 1, 2⟩
      ⟨0, ⟨(RQ.fin (3/2), RQ.fin (1/2)), none⟩, 0, none, []⟩ "right" =
      some ⟨0, ⟨(RQ.fin (1/2), RQ.fin (1/2)), none⟩, 0, none, []⟩ := by
    rw [moveImage_eq _ _ "right" (1, 0) rfl rfl]
    norm_num [imageStep, RQ.trunc]
  have e2 : moveImage ⟨0, true, 0, 2, 0, 1, 1, 2⟩
      ⟨0, ⟨(RQ.fin (1/2), RQ.fin (1/2)), none⟩, 0, none, []⟩ "left" =
      some ⟨0, ⟨(RQ.fin (3/2), RQ.fin (1/2)), none⟩, 0, none, []⟩ := by
    rw [moveImage_eq _ _ "left" (-1, 0) rfl rfl]
    norm_num [imageStep, RQ.trunc]
  refine ⟨?_, ?_⟩
  · rw [e1]
    show Option.map (fun s => s.target.xy)
      (moveImage ⟨0, true, 0, 2, 0, 1, 1, 2⟩
        ⟨0, ⟨(RQ.fin (1/2), RQ.fin (1/2)), none⟩, 0, none, []⟩ "left") =
      some (RQ.fin (3/2), RQ.fin (1/2))
    rw [e2]
    rfl
  · intro h
    rw [cellCenter] at h
    norm_num at h

/-- C7: for a filled-region shape (image or patch), if the host's
containment test reports the event inside, `compute_pick` returns a
Selection with distance exactly 0 whose target is exactly the event's
data coordinates; if outside, it returns no match. -/
theorem computePickRegion_inside_outside (artistId : ℕ) (b : Bool)
    (ev : Event) :
    (b = true → computePickRegion artistId b ev =
      some ⟨artistId, ⟨(RQ.fin ev.xdata, RQ.fin ev.ydata), none⟩,
            0, none, []⟩) ∧
    (b = false → computePickRegion artistId b ev = none) := by
  constructor <;> rintro rfl <;> rfl

/-- Witness for `computePickRegion_inside_outside` at a concrete event,
both inside and outside. -/
theorem computePickRegion_inside_outside_witness :
    computePickRegion 7 true ⟨1, 2, 3, 4⟩ =
      some ⟨7, ⟨(RQ.fin 3, RQ.fin 4), none⟩, 0, none, []⟩ ∧
    computePickRegion 7 false ⟨1, 2, 3, 4⟩ = none :=
  ⟨(computePickRegion_inside_outside 7 true ⟨1, 2, 3, 4⟩).1 rfl,
   (computePickRegion_inside_outside 7 false ⟨1, 2, 3, 4⟩).2 rfl⟩

/-- C9: for a pointer event that the host reports as over a multi-path
scattered-point collection, `compute_pick` returns no match and emits
the diagnostic (the `warnings.warn` flag is true). -/
theorem computePickPathCollection_multipath (a : PathCollectionArtist)
    (ev : Event) (hc : a.contains = true) (hp : 1 < a.numPaths) :
    computePickPathCollection a ev = (.ok none, true) := by
  unfold computePickPathCollection
  rw [hc]
  have hne : a.numPaths ≠ 1 := by omega
  simp [hne]

/-- Witness for `computePickPathCollection_multipath`: a 2-path
collection containing the event. -/
theorem computePickPathCollection_multipath_witness :
    computePickPathCollection ⟨1, true, [], 2, [], fun p => p⟩ ⟨0, 0, 0, 0⟩ =
      (.ok none, true) :=
  computePickPathCollection_multipath ⟨1, true, [], 2, [], fun p => p⟩
    ⟨0, 0, 0, 0⟩ rfl (by norm_num)

/-- C5 (amended): for a line-series Selection carrying a fractional
index, `move` with `left` produces a new Selection at the vertex
`ceil(index) - 1` and with `right` at `floor(index) + 1`, the target
vertex wrapping modulo the point count (the stored index itself is the
unwrapped integer), distance reset to 0; any other key leaves the index
value unchanged, but the call only completes (with the same wrapped
lookup and zero distance) when that index is a plain integer — a
step-style `Index` object raises instead. -/
theorem moveLine_left_right (xydata : List RQ2) (sel : Selection)
    (idx : PickIndex) (hidx : sel.target.index = some idx)
    (hn : xydata ≠ []) :
    (moveLine xydata sel "left" = some
      { sel with
        target := ⟨xydata.getD (((npCeilPick idx - 1) %
            (xydata.length : ℤ)).toNat) (RQ.nan, RQ.nan),
          some (.int (npCeilPick idx - 1))⟩,
        dist2 := 0 }) ∧
    (moveLine xydata sel "right" = some
      { sel with
        target := ⟨xydata.getD (((npFloorPick idx + 1) %
            (xydata.length : ℤ)).toNat) (RQ.nan, RQ.nan),
          some (.int (npFloorPick idx + 1))⟩,
        dist2 := 0 }) ∧
    (∀ key : String, key ≠ "left" → key ≠ "right" → ∀ i : ℤ,
      idx = .int i →
      moveLine xydata sel key = some
        { sel with
          target := ⟨xydata.getD ((i % (xydata.length : ℤ)).toNat)
            (RQ.nan, RQ.nan), some (.int i)⟩,
          dist2 := 0 }) := by
  have hn0 : ¬ xydata.length = 0 := by
    simpa [List.length_eq_zero] using hn
  refine ⟨?_, ?_, ?_⟩
  · simp only [moveLine, hidx]
    rw [if_neg hn0]
    rfl
  · simp only [moveLine, hidx]
    rw [if_neg hn0]
    rfl
  · intro key hkl hkr i hi
    subst hi
    simp only [moveLine, hidx]
    rw [if_neg hn0, if_neg hkl, if_neg hkr]

/-- Witness for `moveLine_left_right`, the claim's 5-point wrap cases:
moving right from vertex 4 targets vertex 0 (stored index 5), moving
left from vertex 0 targets vertex 4 (stored index −1); distance 0. -/
theorem moveLine_left_right_witness :
    moveLine [(RQ.fin 0, RQ.fin 0), (RQ.fin 1, RQ.fin 0),
              (RQ.fin 2, RQ.fin 0), (RQ.fin 3, RQ.fin 0),
              (RQ.fin 4, RQ.fin 0)]
      ⟨0, ⟨(RQ.fin 4, RQ.fin 0), some (.int 4)⟩, 9, none, []⟩ "right" =
      some ⟨0, ⟨(RQ.fin 0, RQ.fin 0), some (.int 5)⟩, 0, none, []⟩ ∧
    moveLine [(RQ.fin 0, RQ.fin 0), (RQ.fin 1, RQ.fin 0),
              (RQ.fin 2, RQ.fin 0), (RQ.fin 3, RQ.fin 0),
              (RQ.fin 4, RQ.fin 0)]
      ⟨0, ⟨(RQ.fin 0, RQ.fin 0), some (.int 0)⟩, 9, none, []⟩ "left" =
      some ⟨0, ⟨(RQ.fin 4, RQ.fin 0), some (.int (-1))⟩, 0, none, []⟩ := by
  constructor
  · exact (moveLine_left_right _ _ (.int 4) rfl
      (List.cons_ne_nil _ _)).2.1
  · exact (moveLine_left_right _ _ (.int 0) rfl
      (List.cons_ne_nil _ _)).1

/-- C5 counterexample: a Selection carrying a step-style fractional
index (an `Index` instance) moved with a key other than left/right
("up"): the source computes `new_idx % len(artist_xys)` on the `Index`
object, which raises `TypeError` (`Index` defines no modulo), so no
Selection with unchanged index is produced. -/
theorem moveLine_other_key_counterexample :
    moveLine [(RQ.fin 0, RQ.fin 0), (RQ.fin 1, RQ.fin 0)]
      ⟨0, ⟨(RQ.fin 0, RQ.fin 0), some (.steps ⟨0, 1/2, 0⟩)⟩, 0, none, []⟩
      "up" = none := rfl

/-- C6: the parametric offset of the projection onto a nonzero-length
segment, normalized by the segment length (the `dot/ds` ratio the source
clips to `[0, ds]`), always lies in `[0, 1]`; consequently the projected
point `p + t (q - p)` is a convex combination of the endpoints and is
never extrapolated beyond either of them.  `lineCandidate` applies
`segT`/`segProj` to every consecutive pair of the screen polyline. -/
theorem segT_clamped (xy p q : ℚ × ℚ) (hpq : p ≠ q) :
    ∃ t : ℚ, segT (liftPair xy) (liftPair p) (liftPair q) = RQ.fin t ∧
      0 ≤ t ∧ t ≤ 1 ∧
      segProj (liftPair xy) (liftPair p) (liftPair q) =
        (RQ.fin (p.1 + t * (q.1 - p.1)), RQ.fin (p.2 + t * (q.2 - p.2))) := by
  have hd2 : (q.1 - p.1) * (q.1 - p.1) + (q.2 - p.2) * (q.2 - p.2) ≠ 0 := by
    intro h
    apply hpq
    have hm1 := mul_self_nonneg (q.1 - p.1)
    have hm2 := mul_self_nonneg (q.2 - p.2)
    have h1 : q.1 - p.1 = 0 := by nlinarith
    have h2 : q.2 - p.2 = 0 := by nlinarith
    have e1 : p.1 = q.1 := by linarith
    have e2 : p.2 = q.2 := by linarith
    exact Prod.ext_iff.mpr ⟨e1, e2⟩
  have key : segT (liftPair xy) (liftPair p) (liftPair q) =
      RQ.fin (min (max
        (((xy.1 - p.1) * (q.1 - p.1) + (xy.2 - p.2) * (q.2 - p.2)) /
         ((q.1 - p.1) * (q.1 - p.1) + (q.2 - p.2) * (q.2 - p.2))) 0) 1) := by
    simp only [segT, liftPair, sub2, dot2, normSq, RQ.fin_sub, RQ.fin_mul,
      RQ.fin_add, RQ.fin_div, if_neg hd2, RQ.clip01]
  refine ⟨_, key, le_min (le_max_right _ _) zero_le_one, min_le_right _ _,
    ?_⟩
  simp only [segProj]
  rw [key]
  simp only [liftPair, RQ.fin_sub, RQ.fin_mul, RQ.fin_add]

/-- Witness for `segT_clamped`: projecting the point `(20, 7)` onto the
segment from `(0, 0)` to `(10, 0)` (the offset clamps to the far
endpoint). -/
theorem segT_clamped_witness :
    ∃ t : ℚ, segT (liftPair (20, 7)) (liftPair (0, 0)) (liftPair (10, 0)) =
      RQ.fin t ∧ 0 ≤ t ∧ t ≤ 1 ∧
      segProj (liftPair (20, 7)) (liftPair (0, 0)) (liftPair (10, 0)) =
        (RQ.fin (0 + t * (10 - 0)), RQ.fin (0 + t * (0 - 0))) :=
  segT_clamped (20, 7) (0, 0) (10, 0) (by norm_num [Prod.ext_iff])

/-- The fold of `minByDist2` returns an element of `a :: l` of minimal
distance (first minimal on ties, as Python's `min`). -/
theorem foldl_minByDist2_spec (l : List Selection) (a : Selection) :
    (l.foldl (fun acc b => if b.dist2 < acc.dist2 then b else acc) a)
      ∈ a :: l ∧
    ∀ t ∈ a :: l,
      (l.foldl (fun acc b => if b.dist2 < acc.dist2 then b else acc)
        a).dist2 ≤ t.dist2 := by
  induction l generalizing a with
  | nil =>
    refine ⟨List.mem_cons_self a [], ?_⟩
    intro t ht
    rw [List.mem_singleton.mp ht]
    exact le_refl _
  | cons b l ih =>
    obtain ⟨ihm, ihle⟩ := ih (if b.dist2 < a.dist2 then b else a)
    simp only [List.foldl_cons]
    have hstep : (if b.dist2 < a.dist2 then b else a) ∈ a :: b :: l := by
      by_cases hc : b.dist2 < a.dist2
      · rw [if_pos hc]
        exact List.mem_cons_of_mem _ (List.mem_cons_self _ _)
      · rw [if_neg hc]
        exact List.mem_cons_self _ _
    have hstep_le_a :
        (if b.dist2 < a.dist2 then b else a).dist2 ≤ a.dist2 := by
      by_cases hc : b.dist2 < a.dist2
      · rw [if_pos hc]
        exact le_of_lt hc
      · rw [if_neg hc]
    have hstep_le_b :
        (if b.dist2 < a.dist2 then b else a).dist2 ≤ b.dist2 := by
      by_cases hc : b.dist2 < a.dist2
      · rw [if_pos hc]
      · rw [if_neg hc]
        exact le_of_not_lt hc
    constructor
    · rcases List.mem_cons.mp ihm with he | hl
      · rw [he]
        exact hstep
      · exact List.mem_cons_of_mem _ (List.mem_cons_of_mem _ hl)
    · intro t ht
      have hres := ihle (if b.dist2 < a.dist2 then b else a)
        (List.mem_cons_self _ _)
      rcases List.mem_cons.mp ht with rfl | ht'
      · exact le_trans hres hstep_le_a
      · rcases List.mem_cons.mp ht' with rfl | hl'
        · exact le_trans hres hstep_le_b
        · exact ihle t (List.mem_cons_of_mem _ hl')

/-- `minByDist2` returns a member of minimal distance. -/
theorem minByDist2_spec (l : List Selection) (s : Selection)
    (h : minByDist2 l = some s) :
    s ∈ l ∧ ∀ t ∈ l, s.dist2 ≤ t.dist2 := by
  cases l with
  | nil => exact absurd h (by simp [minByDist2])
  | cons a l =>
    have he : s = l.foldl
        (fun acc b => if b.dist2 < acc.dist2 then b else acc) a := by
      have := h
      simp only [minByDist2, Option.some.injEq] at this
      exact this.symm
    rw [he]
    exact foldl_minByDist2_spec l a

/-- `minByDist2` is `none` exactly on the empty candidate list
(`min(..., default=None)`). -/
theorem minByDist2_none_iff (l : List Selection) :
    minByDist2 l = none ↔ l = [] := by
  cases l <;> simp [minByDist2]

/-- C1: whenever building the candidate list succeeds (no `ValueError`
inside a branch), the `Line2D` pick keeps the minimum-distance candidate
among those produced and returns it exactly when that distance is
strictly below the pick radius (`sqrt dist2 < pickradius`, i.e.
`0 ≤ pickradius ∧ dist2 < pickradius ^ 2`); otherwise it returns no
match. -/
theorem computePickLine_min_radius (a : LineArtist) (ev : Event)
    (sels : List Selection) (h : lineSels a ev = .ok sels) :
    (∀ s, computePickLine a ev = .ok (some s) →
      s ∈ sels ∧ (∀ t ∈ sels, s.dist2 ≤ t.dist2) ∧
      0 ≤ a.pickradius ∧ s.dist2 < a.pickradius ^ 2) ∧
    (computePickLine a ev = .ok none ↔
      ∀ t ∈ sels, ¬ (0 ≤ a.pickradius ∧ t.dist2 < a.pickradius ^ 2)) := by
  have hpick : computePickLine a ev =
      .ok (match minByDist2 sels with
        | some s =>
          if 0 ≤ a.pickradius ∧ s.dist2 < a.pickradius ^ 2 then some s
          else none
        | none => none) := by
    unfold computePickLine
    rw [h]
  cases hm : minByDist2 sels with
  | none =>
    rw [hm] at hpick
    replace hpick : computePickLine a ev = .ok none := hpick
    have hnil := (minByDist2_none_iff sels).mp hm
    subst hnil
    constructor
    · intro s hs
      rw [hpick] at hs
      exact absurd hs (by simp)
    · constructor
      · intro _ t ht
        exact absurd ht (by simp)
      · intro _
        exact hpick
  | some m =>
    rw [hm] at hpick
    replace hpick : computePickLine a ev =
        .ok (if 0 ≤ a.pickradius ∧ m.dist2 < a.pickradius ^ 2 then some m
             else none) := hpick
    obtain ⟨hmem, hle⟩ := minByDist2_spec sels m hm
    by_cases hacc : 0 ≤ a.pickradius ∧ m.dist2 < a.pickradius ^ 2
    · rw [if_pos hacc] at hpick
      constructor
      · intro s hs
        rw [hpick] at hs
        injection hs with h1
        injection h1 with h2
        subst h2
        exact ⟨hmem, hle, hacc.1, hacc.2⟩
      · constructor
        · intro hn
          rw [hpick] at hn
          exact absurd hn (by simp)
        · intro hall
          exact absurd hacc (hall m hmem)
    · rw [if_neg hacc] at hpick
      constructor
      · intro s hs
        rw [hpick] at hs
        exact absurd hs (by simp)
      · constructor
        · intro _ t ht hta
          exact hacc ⟨hta.1, lt_of_le_of_lt (hle t ht) hta.2⟩
        · intro _
          exact hpick

/-- Witness for `computePickLine_min_radius`: a one-point marker-only
artist at data `(3, 4)` (identity transforms), event at the origin,
pick radius 10: the single candidate has squared distance 25 and is
accepted. -/
theorem computePickLine_min_radius_witness :
    (⟨9, ⟨(RQ.fin 3, RQ.fin 4), some (.int 0)⟩, 25, none, []⟩ : Selection) ∈
      [(⟨9, ⟨(RQ.fin 3, RQ.fin 4), some (.int 0)⟩, 25, none, []⟩ :
        Selection)] ∧
    (∀ t ∈ [(⟨9, ⟨(RQ.fin 3, RQ.fin 4), some (.int 0)⟩, 25, none, []⟩ :
        Selection)], (25 : ℚ) ≤ t.dist2) ∧
    (0 : ℚ) ≤ 10 ∧ (25 : ℚ) < 10 ^ 2 := by
  have hsels : lineSels
      ⟨9, [(RQ.fin 3, RQ.fin 4)], true, false, .lines, fun p => p,
       fun l => l, true, fun p => p, 10⟩ ⟨0, 0, 0, 0⟩ =
      .ok [⟨9, ⟨(RQ.fin 3, RQ.fin 4), some (.int 0)⟩, 25, none, []⟩] := by
    norm_num [lineSels, markerSel, evXY, normSq, dot2, sub2, nanargminVal,
      nanargminAux, Except.map, List.getD]
  have hres : computePickLine
      ⟨9, [(RQ.fin 3, RQ.fin 4)], true, false, .lines, fun p => p,
       fun l => l, true, fun p => p, 10⟩ ⟨0, 0, 0, 0⟩ =
      .ok (some ⟨9, ⟨(RQ.fin 3, RQ.fin 4), some (.int 0)⟩, 25, none, []⟩) := by
    rw [computePickLine, hsels]
    norm_num [minByDist2]
  exact (computePickLine_min_radius _ _ _ hsels).1 _ hres

/-- C4: evaluating the `Line2D` pick at degenerate inputs.  With an
empty point sequence (markers visible) or with all distances NaN, the
source's `np.nanargmin` raises `ValueError` and the exception escapes
`compute_pick` (first three conjuncts), contrary to the stated silent
no-match: this includes the case of a single zero-length segment, whose
NaN distance leaves nothing for `nanargmin`.  The last conjunct shows
the part of the claim the code does satisfy: a zero-length segment
among valid ones is excluded from the minimum-distance search via its
NaN distance, and the pick completes normally on the remaining
segment. -/
theorem computePickLine_degenerate_raises :
    computePickLine
      ⟨0, [], true, false, .lines, fun p => p, fun l => l, true,
       fun p => p, 5⟩ ⟨0, 0, 0, 0⟩ = .error "All-NaN slice encountered" ∧
    computePickLine
      ⟨0, [(RQ.nan, RQ.nan)], true, false, .lines, fun p => p,
       fun l => l, true, fun p => p, 5⟩ ⟨0, 0, 0, 0⟩ =
      .error "All-NaN slice encountered" ∧
    computePickLine
      ⟨0, [(RQ.fin 0, RQ.fin 0), (RQ.fin 0, RQ.fin 0)], false, true,
       .lines, fun p => p, fun l => l, true, fun p => p, 5⟩ ⟨0, 0, 0, 0⟩ =
      .error "All-NaN slice encountered" ∧
    computePickLine
      ⟨0, [(RQ.fin 0, RQ.fin 0), (RQ.fin 0, RQ.fin 0), (RQ.fin 3, RQ.fin 4)],
       false, true, .lines, fun p => p, fun l => l, true, fun p => p, 5⟩
      ⟨0, 0, 0, 0⟩ =
      .ok (some ⟨0, ⟨(RQ.fin 0, RQ.fin 0), some (.flt 1)⟩, 0, none, []⟩) := by
  refine ⟨rfl, rfl, ?_, ?_⟩
  · norm_num [computePickLine, lineSels, lineCandidate, drawstyleConv,
      segT, segProj, normSq, dot2, sub2, evXY, RQ.clip01, nanargminVal,
      nanargminAux, Except.map]
  · norm_num [computePickLine, lineSels, lineCandidate, drawstyleConv,
      segT, segProj, normSq, dot2, sub2, evXY, RQ.clip01, nanargminVal,
      nanargminAux, minByDist2, List.getD, Except.map]
